import Mathlib

/-!
Shallow embedding of the ThreatLens diff-scanning pipeline
(`src/diff.ts`, `src/scanner.ts`, `src/packs.ts`, `src/llm.ts`,
`src/cli.ts`, `web/app/api/scan/route.ts`) in Lean 4, together with
theorems settling the frozen claims about the specification.

Modelling conventions:
* JavaScript strings are Lean `String`s; string algorithms are written
  over `List Char` (the `.data` of a `String`) so that they evaluate by
  kernel reduction.  JavaScript `toLowerCase` is modelled by ASCII case
  folding (the two agree on all ASCII input, which is the only input the
  development evaluates).
* JavaScript numbers are `ℚ` (all numbers reaching the modelled code are
  produced by `JSON.parse`, hence finite); `Math.floor` is `Int.floor`,
  `toFixed(2)` followed by `Number(...)` is rounding to two decimals.
* Fallible code (a rule's `match` throwing, `resolvePolicyPack`
  throwing) is modelled with `Except`.
* `Array.prototype.sort` with a comparator (a total preorder here) is
  stable, and stable sorts by a fixed total preorder coincide, so it is
  modelled by `List.insertionSort` on the "comparator returns ≤ 0"
  relation.  The comparator's path tiebreak is
  `String.prototype.localeCompare`, a host (ICU) collation that is
  locale-dependent and not repository code: it enters the model as an
  abstract integer-valued comparator, with a concrete code-point
  placeholder fixed only where tiebreak order is irrelevant to the
  statement judged.
-/

/-- Severity levels of findings, `src/types.ts`. -/
inductive Severity where
  | low
  | medium
  | high
deriving DecidableEq, Repr

/-- Numeric severity order `SEVERITY_ORDER` from `src/scanner.ts`
(`high: 3, medium: 2, low: 1`). -/
def severityRank : Severity → Nat
  | .high => 3
  | .medium => 2
  | .low => 1

/-- The fail-on threshold: a severity or the literal `"none"`
(modelled as `Option.none`). -/
abbrev Threshold := Option Severity

/-- Origin tag of a finding (`source?: "rule" | "llm"` in `src/types.ts`);
the field is optional in the source, hence used as `Option SourceTag`. -/
inductive SourceTag where
  | rule
  | llm
deriving DecidableEq, Repr

/-- An added line extracted from a unified diff, `src/types.ts`. -/
structure AddedLine where
  filePath : String
  line : Nat
  text : String
deriving DecidableEq, Repr

/-- A finding, `src/types.ts`.  `line` is an `Int` because normalized
advisory lines are produced by `Math.max(1, Math.floor(...))`. -/
structure Finding where
  ruleId : String
  title : String
  severity : Severity
  description : String
  filePath : String
  line : Int
  evidence : String
  source : Option SourceTag := none
  confidence : Option ℚ := none
deriving DecidableEq, Repr

/-- Summary counts, `src/types.ts` (`ScanResult.summary`). -/
structure ScanSummary where
  total : Nat
  high : Nat
  medium : Nat
  low : Nat
deriving DecidableEq, Repr

/-- Result of `scanDiff`, `src/types.ts`. -/
structure ScanResult where
  findings : List Finding
  summary : ScanSummary
deriving DecidableEq, Repr

/-- ASCII case folding of a character; models JavaScript `toLowerCase`
on the ASCII range. -/
def asciiLower (c : Char) : Char :=
  if 'A' ≤ c ∧ c ≤ 'Z' then Char.ofNat (c.toNat + 32) else c

/-- Characters the slug regex `[^a-z0-9]` keeps: lowercase ASCII letters
and digits. -/
def isLowerAlnum (c : Char) : Bool :=
  ('a' ≤ c && c ≤ 'z') || ('0' ≤ c && c ≤ '9')

/-- ASCII decimal digit test. -/
def isDigitChar (c : Char) : Bool :=
  '0' ≤ c && c ≤ '9'

/-- Horizontal whitespace as matched by the regex class `\s` inside a
single diff line (a line never contains `\n`). -/
def isWsChar (c : Char) : Bool :=
  c = ' ' || c = '\t' || c = '\r' || c = '\x0b' || c = '\x0c'

/-- Substring test: models JavaScript `String.prototype.includes` and a
regex alternation of literal terms. -/
def containsSeq (needle hay : List Char) : Bool :=
  hay.tails.any (fun t => needle.isPrefixOf t)

/-- Splits a character list at every `'\n'`; JavaScript
`split(/\r?\n/)` is this followed by stripping one trailing `'\r'`
from each piece (`stripCr`). -/
def splitOnNl : List Char → List (List Char)
  | [] => [[]]
  | c :: rest =>
    match splitOnNl rest with
    | [] => [[]]
    | l :: ls => if c = '\n' then [] :: l :: ls else (c :: l) :: ls

/-- Removes a single trailing `'\r'` (see `splitOnNl`). -/
def stripCr (l : List Char) : List Char :=
  if l.getLast? = some '\r' then l.dropLast else l

/-- The line decomposition `diffText.split(/\r?\n/)` used by
`parseAddedLines` in `src/diff.ts` / `web/lib/diff.ts`. -/
def splitJsLines (s : String) : List (List Char) :=
  (splitOnNl s.data).map stripCr

/-- JavaScript `trim` (whitespace at both ends removed), on char lists. -/
def trimChars (l : List Char) : List Char :=
  ((l.dropWhile isWsChar).reverse.dropWhile isWsChar).reverse

/-- Parses a maximal nonempty run of decimal digits, returning its value
(base 10, as `parseInt(_, 10)`) and the remaining characters. -/
def takeDigits (l : List Char) : Option (Nat × List Char) :=
  let digits := l.takeWhile isDigitChar
  if digits.isEmpty then none
  else some (digits.foldl (fun acc c => 10 * acc + (c.toNat - '0'.toNat)) 0,
             l.dropWhile isDigitChar)

/-- Consumes a nonempty run of `\s` characters, failing on none. -/
def skipWs1 (l : List Char) : Option (List Char) :=
  if (l.takeWhile isWsChar).isEmpty then none else some (l.dropWhile isWsChar)

/-- Consumes the optional group `(?:,\d+)?`: a comma followed by at
least one digit, or nothing. -/
def optCommaDigits (l : List Char) : List Char :=
  match l with
  | ',' :: rest =>
    match takeDigits rest with
    | some (_, r) => r
    | none => l
  | _ => l

/-- Consumes one expected character. -/
def expectChar (c : Char) (l : List Char) : Option (List Char) :=
  match l with
  | d :: rest => if d = c then some rest else none
  | [] => none

/-- Matches the hunk-header regex
`/^@@\s+-\d+(?:,\d+)?\s+\+(\d+)(?:,\d+)?\s+@@/` of `src/diff.ts`,
returning the captured new-file start line.  The regex is deterministic
(adjacent character classes are disjoint), so a straight-line parser is
an exact model. -/
def hunkCapture (l : List Char) : Option Nat := do
  let l ← expectChar '@' l
  let l ← expectChar '@' l
  let l ← skipWs1 l
  let l ← expectChar '-' l
  let (_, l) ← takeDigits l
  let l := optCommaDigits l
  let l ← skipWs1 l
  let l ← expectChar '+' l
  let (n, l) ← takeDigits l
  let l := optCommaDigits l
  let l ← skipWs1 l
  let l ← expectChar '@' l
  let _ ← expectChar '@' l
  pure n

/-- `parseNewFilePath` from `src/diff.ts`: strips the `+++ ` marker,
trims, maps the `/dev/null` sentinel to "no file", and strips a leading
`b/`. -/
def parseNewFilePath (rawLine : List Char) : Option (List Char) :=
  let value := trimChars (rawLine.drop 4)
  if value = "/dev/null".data then none
  else if "b/".data.isPrefixOf value then some (value.drop 2)
  else some value

/-- The per-line loop of `parseAddedLines` (`src/diff.ts`), carrying
`currentFile`, `newLineNumber` and `inHunk`. -/
def parseLinesGo : Option (List Char) → Nat → Bool → List (List Char) → List AddedLine
  | _, _, _, [] => []
  | cf, n, inHunk, l :: ls =>
    if "+++ ".data.isPrefixOf l then
      parseLinesGo (parseNewFilePath l) n false ls
    else
      match hunkCapture l with
      | some m => parseLinesGo cf m true ls
      | none =>
        match inHunk with
        | false => parseLinesGo cf n false ls
        | true =>
          match cf with
          | none => parseLinesGo none n true ls
          | some fp =>
            if "+".data.isPrefixOf l ∧ ¬ "+++".data.isPrefixOf l then
              { filePath := String.mk fp, line := n, text := String.mk (l.drop 1) }
                :: parseLinesGo (some fp) (n + 1) true ls
            else if " ".data.isPrefixOf l then
              parseLinesGo (some fp) (n + 1) true ls
            else
              parseLinesGo (some fp) n true ls

/-- `parseAddedLines` from `src/diff.ts` / `web/lib/diff.ts`. -/
def parseAddedLines (diffText : String) : List AddedLine :=
  parseLinesGo none 0 false (splitJsLines diffText)

/-- Context handed to a rule, `src/types.ts` (`RuleContext`). -/
structure RuleContext where
  linesInFile : List AddedLine
  indexInFile : Nat

/-- A pattern rule, `src/types.ts`.  The TS field `match` is named
`matchRule` (`match` is a Lean keyword).  Its result is wrapped in
`Except Unit` to model that a JavaScript function may throw: `.error ()`
is a thrown exception, `.ok` a normal return. -/
structure Rule where
  id : String
  title : String
  severity : Severity
  description : String
  matchRule : AddedLine → RuleContext → Except Unit (Option String)

/-- `severityMeetsThreshold` from `src/scanner.ts`: `none` never meets,
otherwise compare severity ranks. -/
def severityMeetsThreshold (severity : Severity) (threshold : Threshold) : Bool :=
  match threshold with
  | none => false
  | some t => severityRank t ≤ severityRank severity

/-- The block decision shared by `src/cli.ts` (lines 93–95) and
`web/app/api/scan/route.ts` (lines 126–128): some deterministic finding
meets the threshold. -/
def shouldBlockOf (deterministicFindings : List Finding) (failOn : Threshold) : Bool :=
  deterministicFindings.any (fun f => severityMeetsThreshold f.severity failOn)

/-- `groupByFile` from `src/scanner.ts`: a JavaScript `Map` keyed by
file path — groups keep first-occurrence order, buckets keep diff
order. -/
def groupByFile (lines : List AddedLine) : List (String × List AddedLine) :=
  lines.foldl (fun acc l =>
    if acc.any (fun g => g.1 = l.filePath) then
      acc.map (fun g => if g.1 = l.filePath then (g.1, g.2 ++ [l]) else g)
    else acc ++ [(l.filePath, [l])]) []

/-- The scanner's intra-pass dedup key
`` `${ruleId}:${filePath}:${line}:${evidence}` `` (`src/scanner.ts`). -/
def findingScanKey (f : Finding) : String :=
  f.ruleId ++ ":" ++ f.filePath ++ ":" ++ toString f.line ++ ":" ++ f.evidence

/-- The merger's dedup key, which appends `` `:${source ?? "rule"}` ``
(`src/cli.ts` line 306, `web/app/api/scan/route.ts` line 351). -/
def findingMergeKey (f : Finding) : String :=
  findingScanKey f ++ ":" ++
    (match f.source with
     | some .llm => "llm"
     | some .rule => "rule"
     | none => "rule")

/-- First-occurrence-wins dedup loop over a `seen` key set, the shape of
both `dedupeFindings` functions in the source. -/
def dedupeByKey (key : Finding → String) : List String → List Finding → List Finding
  | _, [] => []
  | seen, f :: rest =>
    if seen.contains (key f) then dedupeByKey key seen rest
    else f :: dedupeByKey key (key f :: seen) rest

/-- `dedupeFindings` of `src/scanner.ts` (key without `source`). -/
def dedupeFindingsScan (findings : List Finding) : List Finding :=
  dedupeByKey findingScanKey [] findings

/-- `dedupeFindings` of `src/cli.ts` / the route (key with `source`). -/
def dedupeFindingsMerge (findings : List Finding) : List Finding :=
  dedupeByKey findingMergeKey [] findings

/-- Strict code-point lexicographic order on character lists.  This is
NOT a model of `localeCompare`: the host's locale collation compares
letters case-insensitively at the primary level (e.g. `"app.ts"`
precedes `"README.md"` while code-point order says the opposite).  It
is used (a) to formalize claim C8's word "lexicographically" in
`findingOrdered`, and (b) inside the placeholder path comparator
`codePointCmp` that the pipeline instantiations fix. -/
def charListLt : List Char → List Char → Bool
  | [], [] => false
  | [], _ :: _ => true
  | _ :: _, [] => false
  | c :: cs, d :: ds =>
    if c.toNat < d.toNat then true
    else if d.toNat < c.toNat then false
    else charListLt cs ds

/-- The comparator of `scanDiff` (`src/scanner.ts` lines 374–386) as a
function of the path tiebreak: severity rank descending, then the sign
of `pathCmp` (the source calls `a.filePath.localeCompare(b.filePath)`,
a host library collation that is locale-dependent and not part of the
repository, so it enters the model as an abstract integer-valued
comparator), then line ascending.  `findingLEWith cmp a b` is
"the comparator returns ≤ 0 on `(a, b)`". -/
def findingLEWith (pathCmp : String → String → Int) (a b : Finding) : Bool :=
  if severityRank b.severity < severityRank a.severity then true
  else if severityRank a.severity < severityRank b.severity then false
  else if pathCmp a.filePath b.filePath < 0 then true
  else if 0 < pathCmp a.filePath b.filePath then false
  else a.line ≤ b.line

/-- The relation sorted by, as a decidable `Prop`. -/
def findingLEPWith (pathCmp : String → String → Int) (a b : Finding) : Prop :=
  findingLEWith pathCmp a b = true

instance (pathCmp : String → String → Int) : DecidableRel (findingLEPWith pathCmp) :=
  fun a b => by
    unfold findingLEPWith
    infer_instance

/-- Modelled from the spec: `sortFindings` is imported from
`src/scanner.ts` by `src/cli.ts` and the route, but its definition is
not among the provided sources; spec §4.6 fixes it to the same
comparator as `scanDiff`'s inline sort (§4.2), here parameterized by
the path comparator.  A stable sort by that comparator (JavaScript
`Array.prototype.sort` is stable; stable sorts by a fixed total
preorder coincide, so insertion sort is an exact model). -/
def sortFindingsWith (pathCmp : String → String → Int)
    (findings : List Finding) : List Finding :=
  List.insertionSort (findingLEPWith pathCmp) findings

/-- A concrete placeholder path comparator: code-point order.  The
pipeline instantiations below (`sortFindings`, `scanDiffE`, `postScan`)
fix it where a closed comparator is needed; none of the statements
judged through them depend on how path ties are broken (the
order-sensitive claim C8 is settled against the comparator-abstract
`sortFindingsWith`/`scanDiffEWith`). -/
def codePointCmp (a b : String) : Int :=
  if charListLt a.data b.data then -1
  else if charListLt b.data a.data then 1
  else 0

/-- `sortFindings` with the placeholder path comparator. -/
def sortFindings (findings : List Finding) : List Finding :=
  sortFindingsWith codePointCmp findings

/-- The summary block of `scanDiff` (`src/scanner.ts` lines 390–395);
also the spec-fixed `summarizeFindings` (§4.6) used on merged lists by
`src/cli.ts` and the route, whose definition is likewise not among the
provided sources. -/
def summarizeFindings (findings : List Finding) : ScanSummary :=
  { total := findings.length
    high := (findings.filter (fun f => f.severity = .high)).length
    medium := (findings.filter (fun f => f.severity = .medium)).length
    low := (findings.filter (fun f => f.severity = .low)).length }

/-- Inner loop of `scanDiff`: run every rule on one line, in rule
order; a throwing rule propagates its exception (there is no
`try`/`catch` in `scanDiff`). -/
def runRules (rules : List Rule) (filePath : String) (l : AddedLine)
    (ctx : RuleContext) : Except Unit (List Finding) :=
  match rules with
  | [] => .ok []
  | r :: rs => do
    let evidence ← r.matchRule l ctx
    let rest ← runRules rs filePath l ctx
    match evidence with
    | none => .ok rest
    | some e =>
      .ok ({ ruleId := r.id, title := r.title, severity := r.severity,
             description := r.description, filePath := filePath,
             line := (l.line : Int), evidence := e } :: rest)

/-- Per-file loop of `scanDiff`: each line with its index, context =
all added lines of the file. -/
def scanLines (rules : List Rule) (filePath : String)
    (allLines : List AddedLine) : Nat → List AddedLine → Except Unit (List Finding)
  | _, [] => .ok []
  | idx, l :: ls => do
    let here ← runRules rules filePath l ⟨allLines, idx⟩
    let rest ← scanLines rules filePath allLines (idx + 1) ls
    .ok (here ++ rest)

/-- File-group loop of `scanDiff`. -/
def scanFiles (rules : List Rule) : List (String × List AddedLine) → Except Unit (List Finding)
  | [] => .ok []
  | (fp, lines) :: rest => do
    let here ← scanLines rules fp lines 0 lines
    let more ← scanFiles rules rest
    .ok (here ++ more)

/-- `scanDiff` from `src/scanner.ts`, parameterized by the rule set
(the source closes over the fixed `rules` catalog of `src/rules.ts`)
and by the path comparator of its final sort (the source's
`localeCompare`); exception-aware: a throwing rule aborts the whole
scan because the source has no handler around `rule.match`. -/
def scanDiffEWith (pathCmp : String → String → Int) (rules : List Rule)
    (diffText : String) : Except Unit ScanResult :=
  match scanFiles rules (groupByFile (parseAddedLines diffText)) with
  | .error e => .error e
  | .ok findings =>
    let sorted := sortFindingsWith pathCmp (dedupeFindingsScan findings)
    .ok { findings := sorted, summary := summarizeFindings sorted }

/-- `scanDiffEWith` at the placeholder path comparator (see
`codePointCmp`); the pipeline claims judged through it are invariant
under the path tiebreak. -/
def scanDiffE (rules : List Rule) (diffText : String) : Except Unit ScanResult :=
  scanDiffEWith codePointCmp rules diffText

/-- A pack path suppression, `src/packs.ts` (`PathSuppression`). -/
structure PathSuppression where
  contains : String
  disableRules : List String
deriving DecidableEq, Repr

/-- A policy pack, `src/packs.ts` (`PolicyPack`); optional fields are
`Option`s. -/
structure PolicyPack where
  id : String
  name : String
  description : String
  defaultFailOn : Threshold
  enabledRules : Option (List String) := none
  pathSuppressions : Option (List PathSuppression) := none
deriving DecidableEq, Repr

/-- Per-request overrides, `src/packs.ts` (`PolicyOverrides`).
`severityOverrides` is a JavaScript record, modelled as an association
list with unique keys (`JSON.parse` collapses duplicate keys). -/
structure PolicyOverrides where
  disableRules : Option (List String) := none
  severityOverrides : Option (List (String × Severity)) := none
  ignorePathsContaining : Option (List String) := none
deriving DecidableEq, Repr

/-- The `startup-default` pack, `src/packs.ts`. -/
def startupDefaultPack : PolicyPack :=
  { id := "startup-default"
    name := "Startup Default"
    description := "Balanced defaults for SaaS teams. Catch high-impact issues without blocking low-signal patterns."
    defaultFailOn := some .high
    enabledRules := some ["auth-bypass-toggle", "hardcoded-secret",
      "tls-verification-disabled", "cors-wildcard-credentials",
      "open-redirect", "ssrf-user-url", "command-exec-user-input",
      "jwt-none-alg"]
    pathSuppressions := some [{ contains := "test/", disableRules := ["hardcoded-secret"] }] }

/-- The `tenant-isolation` pack, `src/packs.ts`. -/
def tenantIsolationPack : PolicyPack :=
  { id := "tenant-isolation"
    name := "Tenant Isolation Strict"
    description := "Stricter profile for multi-tenant products where auth and data boundary regressions are non-negotiable."
    defaultFailOn := some .medium
    enabledRules := some ["auth-bypass-toggle", "tls-verification-disabled",
      "cors-wildcard-credentials", "open-redirect", "ssrf-user-url",
      "command-exec-user-input", "jwt-none-alg", "hardcoded-secret"]
    pathSuppressions := some
      [{ contains := "fixtures/", disableRules := ["hardcoded-secret"] },
       { contains := "examples/", disableRules := ["hardcoded-secret"] }] }

/-- `POLICY_PACKS`, `src/packs.ts`. -/
def POLICY_PACKS : List PolicyPack :=
  [startupDefaultPack, tenantIsolationPack]

/-- `resolvePolicyPack`, `src/packs.ts`: a falsy id (absent or the
empty string) resolves to the first pack; an unknown id throws. -/
def resolvePolicyPack (packId : Option String) : Except String PolicyPack :=
  if packId = none ∨ packId = some "" then .ok startupDefaultPack
  else
    match POLICY_PACKS.find? (fun pack => pack.id = packId.getD "") with
    | some found => .ok found
    | none =>
      .error ("Unknown policy pack '" ++ packId.getD "" ++
        "'. Available packs: " ++ String.intercalate ", " (POLICY_PACKS.map (·.id)))

/-- `applyPolicy`, `src/packs.ts` lines 97–152: four filters then a
severity remap, in source order.  The empty-string guard in the path
filter models the JavaScript truthiness test `if (pathPart && ...)`. -/
def applyPolicy (findings : List Finding) (pack : PolicyPack)
    (overrides : Option PolicyOverrides := none)
    (respectOpt : Option Bool := none) : List Finding :=
  let disabledByOverride := (overrides.bind (·.disableRules)).getD []
  let severityOv := (overrides.bind (·.severityOverrides)).getD []
  let ignoredPathParts := (overrides.bind (·.ignorePathsContaining)).getD []
  let respectEnabledRules := respectOpt.getD true
  let allowedRuleIds := pack.enabledRules.getD (findings.map (·.ruleId))
  ((((findings.filter (fun f =>
        if respectEnabledRules then allowedRuleIds.contains f.ruleId else true)).filter
      (fun f => ! disabledByOverride.contains f.ruleId)).filter
      (fun f => ! ignoredPathParts.any (fun p =>
        (p ≠ "" : Bool) && containsSeq p.data f.filePath.data))).filter
      (fun f => ! (pack.pathSuppressions.getD []).any (fun sup =>
        containsSeq sup.contains.data f.filePath.data &&
          sup.disableRules.contains f.ruleId))).map
    (fun f =>
      match severityOv.lookup f.ruleId with
      | none => f
      | some s => { f with severity := s })

/-- Claim-side step (1) for C3, following the claim's words: when
`respectAllowList` holds keep only findings whose `ruleId` is in the
pack's allow-list, passing every rule id when the pack declares none;
skip the filter entirely otherwise. -/
def allowListStep (respectAllowList : Bool) (pack : PolicyPack)
    (findings : List Finding) : List Finding :=
  if respectAllowList then
    match pack.enabledRules with
    | none => findings
    | some allowed => findings.filter (fun f => allowed.contains f.ruleId)
  else findings

/-- Claim-side step (2) for C3: drop findings whose `ruleId` is in
`overrides.disableRules`. -/
def disableRulesStep (overrides : Option PolicyOverrides)
    (findings : List Finding) : List Finding :=
  findings.filter (fun f =>
    ! ((overrides.bind (·.disableRules)).getD []).contains f.ruleId)

/-- Claim-side step (3) for C3, exactly as the claim states it: drop
findings whose `filePath` contains any `overrides.ignorePathsContaining`
entry (the empty string is a substring of every path). -/
def ignorePathsStepClaim (overrides : Option PolicyOverrides)
    (findings : List Finding) : List Finding :=
  findings.filter (fun f =>
    ! ((overrides.bind (·.ignorePathsContaining)).getD []).any (fun p =>
        containsSeq p.data f.filePath.data))

/-- Step (3) as the code actually behaves: entries that are the empty
string are skipped (JavaScript truthiness guard `if (pathPart && ...)`). -/
def ignorePathsStepAmended (overrides : Option PolicyOverrides)
    (findings : List Finding) : List Finding :=
  findings.filter (fun f =>
    ! ((overrides.bind (·.ignorePathsContaining)).getD []).any (fun p =>
        (p ≠ "" : Bool) && containsSeq p.data f.filePath.data))

/-- Claim-side step (4) for C3: drop findings matched by a pack path
suppression whose `disableRules` contains the rule id. -/
def packSuppressionStep (pack : PolicyPack) (findings : List Finding) : List Finding :=
  findings.filter (fun f =>
    ! (pack.pathSuppressions.getD []).any (fun sup =>
        containsSeq sup.contains.data f.filePath.data &&
          sup.disableRules.contains f.ruleId))

/-- Claim-side step (5) for C3: remap the severity of each surviving
finding whose rule id appears in `overrides.severityOverrides`, leaving
all other fields and findings unchanged. -/
def severityRemapStep (overrides : Option PolicyOverrides)
    (findings : List Finding) : List Finding :=
  findings.map (fun f =>
    match ((overrides.bind (·.severityOverrides)).getD []).lookup f.ruleId with
    | none => f
    | some s => { f with severity := s })

/-- The five-step pipeline exactly as claim C3 states it. -/
def applyPolicyClaimPipeline (findings : List Finding) (pack : PolicyPack)
    (overrides : Option PolicyOverrides) (respectOpt : Option Bool) : List Finding :=
  severityRemapStep overrides
    (packSuppressionStep pack
      (ignorePathsStepClaim overrides
        (disableRulesStep overrides
          (allowListStep (respectOpt.getD true) pack findings))))

/-- The five-step pipeline with the amended step (3). -/
def applyPolicyAmendedPipeline (findings : List Finding) (pack : PolicyPack)
    (overrides : Option PolicyOverrides) (respectOpt : Option Bool) : List Finding :=
  severityRemapStep overrides
    (packSuppressionStep pack
      (ignorePathsStepAmended overrides
        (disableRulesStep overrides
          (allowListStep (respectOpt.getD true) pack findings))))

/-- LLM advisory mode, `src/llm.ts` (`LLMMode`). -/
inductive LLMMode where
  | off
  | auto
  | always
deriving DecidableEq, Repr

/-- One pass of `replace(/[^a-z0-9]+/g, "-")`: every maximal run of
characters outside `[a-z0-9]` becomes a single `'-'`.  `inRun` records
whether the previous character was part of such a run. -/
def collapseRunsAux : Bool → List Char → List Char
  | _, [] => []
  | inRun, c :: rest =>
    if isLowerAlnum c then c :: collapseRunsAux false rest
    else if inRun then collapseRunsAux true rest
    else '-' :: collapseRunsAux true rest

/-- `replace(/^-+|-+$/g, "")`: strips the leading and the trailing run
of `'-'`. -/
def trimDashes (l : List Char) : List Char :=
  ((l.dropWhile (fun c => c = '-')).reverse.dropWhile (fun c => c = '-')).reverse

/-- `sanitizeRuleId` from `src/llm.ts` lines 375–381: lower-case,
collapse non-alphanumeric runs to `'-'`, trim dashes at both ends,
truncate to 48 characters. -/
def sanitizeRuleId (value : String) : String :=
  String.mk ((trimDashes (collapseRunsAux false (value.data.map asciiLower))).take 48)

/-- A JSON value as produced by `JSON.parse` (the shape of the raw
advisory payload reaching `parseLlmPayload`): no `NaN`/`Infinity`, so
numbers are rationals. -/
inductive JsonValue where
  | null
  | bool (b : Bool)
  | num (q : ℚ)
  | str (s : String)
  | arr (elems : List JsonValue)
  | obj (fields : List (String × JsonValue))

/-- Property lookup on a parsed JSON object (duplicate keys: the last
one wins, as in `JSON.parse`). -/
def getField (fields : List (String × JsonValue)) (name : String) : Option JsonValue :=
  ((fields.filter (fun kv => kv.1 = name)).getLast?).map (·.2)

/-- `typeof x === "string"` projection. -/
def asString? : JsonValue → Option String
  | .str s => some s
  | _ => none

/-- `typeof x === "number"` projection. -/
def asNumber? : JsonValue → Option ℚ
  | .num q => some q
  | _ => none

/-- `isSeverity` from `src/llm.ts`: the value is one of the three
severity strings. -/
def asSeverity? : JsonValue → Option Severity
  | .str s =>
    if s = "low" then some .low
    else if s = "medium" then some .medium
    else if s = "high" then some .high
    else none
  | _ => none

/-- A validated advisory candidate, `src/llm.ts` (`LLMFinding`). -/
structure LLMFinding where
  title : String
  severity : Severity
  filePath : String
  line : Int
  evidence : String
  rationale : String
  confidence : ℚ
  category : String
deriving DecidableEq, Repr

/-- `Number(x.toFixed(2))` on a clamped value: round to two decimal
places. -/
def roundTo2 (q : ℚ) : ℚ :=
  (round (q * 100) : ℚ) / 100

/-- `normalizeFinding` from `src/llm.ts` lines 286–315: reject any
candidate that is not an object with all eight required fields present
and correctly typed; clamp `line` to a minimum of 1 after `Math.floor`,
clamp `confidence` into `[0, 1]` and round it to two decimals. -/
def normalizeFinding : JsonValue → Option LLMFinding
  | .obj fields =>
    match (getField fields "title").bind asString?,
          (getField fields "severity").bind asSeverity?,
          (getField fields "filePath").bind asString?,
          (getField fields "line").bind asNumber?,
          (getField fields "evidence").bind asString?,
          (getField fields "rationale").bind asString?,
          (getField fields "confidence").bind asNumber?,
          (getField fields "category").bind asString? with
    | some title, some severity, some filePath, some line, some evidence,
      some rationale, some confidence, some category =>
      some { title := title, severity := severity, filePath := filePath,
             line := max 1 ⌊line⌋, evidence := evidence, rationale := rationale,
             confidence := roundTo2 (max 0 (min 1 confidence)), category := category }
    | _, _, _, _, _, _, _, _ => none
  | _ => none

/-- Parsed advisory payload, `src/llm.ts` (`LLMParsedPayload`). -/
structure LLMParsedPayload where
  summary : String
  findings : List LLMFinding
deriving DecidableEq, Repr

/-- `parseLlmPayload` from `src/llm.ts` lines 267–284, modelled from
the `JSON.parse` result onward: throw (`.error`) unless the payload is
an object (arrays pass `typeof === "object"`), default the summary,
and keep exactly the candidates `normalizeFinding` accepts — there is
no cap on their number here. -/
def parseLlmPayload : JsonValue → Except Unit LLMParsedPayload
  | .obj fields =>
    .ok { summary := ((getField fields "summary").bind asString?).getD "LLM findings generated"
          findings :=
            match getField fields "findings" with
            | some (.arr elems) => elems.filterMap normalizeFinding
            | _ => [] }
  | .arr _ => .ok { summary := "LLM findings generated", findings := [] }
  | _ => .error ()

/-- `clamp` from `src/llm.ts` line 383:
`Math.min(max, Math.max(min, Math.floor(value)))`. -/
def jsClamp (value : ℚ) (lo hi : ℤ) : ℤ :=
  min hi (max lo ⌊value⌋)

/-- The effective advisory findings cap computed by
`runLlmAdvisoryScan` lines 91–95: `clamp(maxFindings ?? 4, 1, 10)`. -/
def llmMaxFindings (maxFindings : Option ℚ) : ℤ :=
  jsClamp (maxFindings.getD 4) 1 10

/-- The mapping of a normalized advisory candidate to a `Finding`,
`runLlmAdvisoryScan` lines 240–250: the rule id is
`` `llm-${sanitizeRuleId(entry.category)}` ``. -/
def toAdvisoryFinding (entry : LLMFinding) : Finding :=
  { ruleId := "llm-" ++ sanitizeRuleId entry.category
    title := entry.title
    severity := entry.severity
    description := entry.rationale ++ " (LLM advisory)"
    filePath := entry.filePath
    line := entry.line
    evidence := entry.evidence
    source := some .llm
    confidence := some entry.confidence }

/-- The sensitive-keyword alternation of `shouldEscalate`
(`src/llm.ts` line 361), a case-insensitive test of literal terms. -/
def sensitiveKeywords : List String :=
  ["auth", "permission", "tenant", "session", "token", "redirect",
   "fetch", "axios", "proxy", "admin"]

/-- One added line matches the sensitive-keyword pattern: some term is
a case-insensitive substring of `` `${filePath} ${text}` ``. -/
def lineIsSensitive (l : AddedLine) : Bool :=
  sensitiveKeywords.any (fun kw =>
    containsSeq kw.data ((l.filePath ++ " " ++ l.text).data.map asciiLower))

/-- `shouldEscalate` from `src/llm.ts` lines 338–365. -/
def shouldEscalate (mode : LLMMode) (diffText : String)
    (deterministicFindings : List Finding) : Bool :=
  if mode = .always then true
  else if deterministicFindings.any (fun f => f.severity ≠ .low) then true
  else
    let addedLines := parseAddedLines diffText
    if addedLines.length = 0 then false
    else if 250 < addedLines.length then true
    else addedLines.any lineIsSensitive

/-- JavaScript truthiness of an optional environment string: absent or
empty is falsy. -/
def keyTruthy : Option String → Bool
  | none => false
  | some s => s ≠ ""

/-- Whether `runLlmAdvisoryScan` (`src/llm.ts` lines 56–87) reaches the
external advisory call: mode must not be `off`, `OPENROUTER_API_KEY`
must be configured (truthy), and `shouldEscalate` must accept. -/
def llmInvokes (apiKey : Option String) (mode : LLMMode) (diffText : String)
    (deterministicFindings : List Finding) : Bool :=
  if mode = .off then false
  else if ! keyTruthy apiKey then false
  else shouldEscalate mode diffText deterministicFindings

/-- `RequestAuthContext` from `web/app/api/scan/route.ts`. -/
structure RequestAuthContext where
  hasValidApiKey : Bool
  openrouterApiKey : Option String := none
deriving DecidableEq, Repr

/-- `resolveAuthContext` from `web/app/api/scan/route.ts` lines
318–344: with no configured `THREATLENS_API_KEY` (absent or empty,
both falsy) every request is unauthenticated; otherwise the caller's
`x-api-key` header must equal the configured secret, and only then is
an `x-openrouter-api-key` header (trimmed, if nonempty) carried
along. -/
def resolveAuthContext (configuredApiKey : Option String)
    (xApiKey : Option String) (xOpenrouterKey : Option String) : RequestAuthContext :=
  match configuredApiKey with
  | none => { hasValidApiKey := false }
  | some secret =>
    if secret = "" then { hasValidApiKey := false }
    else if xApiKey ≠ some secret then { hasValidApiKey := false }
    else
      { hasValidApiKey := true
        openrouterApiKey :=
          match xOpenrouterKey with
          | none => none
          | some raw =>
            if String.mk (trimChars raw.data) = "" then none
            else some (String.mk (trimChars raw.data)) }

/-- An HTTP-level error produced by the scan route (`ApiError` /
the generic 500 translation in the `catch` block). -/
structure ApiErr where
  status : Nat
  message : String
deriving DecidableEq, Repr

/-- A validated scan request (`ScanRequest` in
`web/app/api/scan/route.ts`): the payload after `validatePayload`
succeeded.  `failOn = none` is an absent field, `some none` the literal
`"none"`. -/
structure ScanPayload where
  diff : String
  packId : Option String := none
  failOn : Option Threshold := none
  overrides : Option PolicyOverrides := none
  llmMode : Option LLMMode := none
deriving Repr

/-- The success body built by `POST` in `web/app/api/scan/route.ts`. -/
structure ScanResponse where
  packId : String
  packName : String
  failOn : Threshold
  shouldBlock : Bool
  summary : ScanSummary
  deterministicSummary : ScanSummary
  advisorySummary : ScanSummary
  findings : List Finding
deriving DecidableEq, Repr

/-- The route's gate condition `payload.llm?.mode && payload.llm.mode
!== "off"` (`web/app/api/scan/route.ts` line 85). -/
def llmModeGate (payload : ScanPayload) : Bool :=
  match payload.llmMode with
  | some m => m ≠ LLMMode.off
  | none => false

/-- The `POST` handler of `web/app/api/scan/route.ts` from the point
where the body has been parsed and validated, with the external
advisory call's findings (`llmResult.findings`) as an input
`advisoryFindings` and the rule catalog as a parameter.  Order as in
the source: reject unauthenticated overrides (403), then an
unauthenticated non-off LLM mode when a server secret is configured
(401), then resolve the pack (an unknown id throws and surfaces as a
500 with the thrown message), scan, apply policy to both channels,
merge, and decide `shouldBlock` from the deterministic findings
only. -/
def postScan (threatlensApiKey : Option String) (xApiKey xOpenrouterKey : Option String)
    (rules : List Rule) (payload : ScanPayload)
    (advisoryFindings : List Finding) : Except ApiErr ScanResponse :=
  let auth := resolveAuthContext threatlensApiKey xApiKey xOpenrouterKey
  if payload.overrides.isSome && ! auth.hasValidApiKey then
    .error { status := 403, message := "overrides are only available for authenticated requests" }
  else if llmModeGate payload && keyTruthy threatlensApiKey && ! auth.hasValidApiKey then
    .error { status := 401, message := "Missing or invalid x-api-key for LLM mode." }
  else
    match resolvePolicyPack payload.packId with
    | .error msg => .error { status := 500, message := msg }
    | .ok pack =>
      let failOn := payload.failOn.getD pack.defaultFailOn
      match scanDiffE rules payload.diff with
      | .error _ => .error { status := 500, message := "Unexpected error" }
      | .ok baseResult =>
        let deterministicFindings :=
          applyPolicy baseResult.findings pack payload.overrides (some true)
        let llmFindings :=
          applyPolicy advisoryFindings pack payload.overrides (some false)
        let mergedFindings :=
          sortFindings (dedupeFindingsMerge (deterministicFindings ++ llmFindings))
        .ok { packId := pack.id
              packName := pack.name
              failOn := failOn
              shouldBlock := shouldBlockOf deterministicFindings failOn
              summary := summarizeFindings mergedFindings
              deterministicSummary := summarizeFindings deterministicFindings
              advisorySummary := summarizeFindings llmFindings
              findings := mergedFindings }

/-- Non-strict form of `charListLt` ("lexicographically ≤"). -/
def charListLe (x y : List Char) : Bool :=
  charListLt x y || decide (x = y)

/-- The ordering relation claim C8 states between any finding `f1`
appearing before a finding `f2`, reading the claim's
"lexicographically" as code-point order: severity strictly greater, or
equal severity and file path code-point ≤, or equal severity and file
path and line ≤.  The program's comparator breaks path ties with
`localeCompare`, which disagrees with this reading (see
`C8_counterexample`); the amended relation is `findingOrderedWith`. -/
def findingOrdered (f1 f2 : Finding) : Prop :=
  severityRank f2.severity < severityRank f1.severity ∨
  (f1.severity = f2.severity ∧ charListLe f1.filePath.data f2.filePath.data = true) ∨
  (f1.severity = f2.severity ∧ f1.filePath = f2.filePath ∧ f1.line ≤ f2.line)

instance : DecidableRel findingOrdered := fun f1 f2 => by
  unfold findingOrdered
  infer_instance

/-- The ordering relation of claim C8 as amended: the path clauses are
stated against the comparator actually used for the tie — the sign of
`localeCompare` — instead of code-point order: severity strictly
greater, or equal severity and `pathCmp ≤ 0` on the file paths, or
equal severity, paths tied by the comparator (`pathCmp = 0`), and
line ≤. -/
def findingOrderedWith (pathCmp : String → String → Int) (f1 f2 : Finding) : Prop :=
  severityRank f2.severity < severityRank f1.severity ∨
  (f1.severity = f2.severity ∧ pathCmp f1.filePath f2.filePath ≤ 0) ∨
  (f1.severity = f2.severity ∧ pathCmp f1.filePath f2.filePath = 0 ∧ f1.line ≤ f2.line)

/-- Modelled host behavior: the sign of `a.localeCompare(b)` — the
scanner comparator's path tiebreak, a host library (ICU) collation
rather than repository code — on the ASCII file paths this development
applies it to.  The default-locale collation compares letters
case-insensitively at the primary level (so `"app.ts"` precedes
`"README.md"`, while code-point order puts `"README.md"` first) and
puts lower case before upper case on otherwise equal strings; only the
primary-level case-insensitivity is exercised by `C8_counterexample`. -/
def icuAsciiCmp (a b : String) : Int :=
  if charListLt (a.data.map asciiLower) (b.data.map asciiLower) then -1
  else if charListLt (b.data.map asciiLower) (a.data.map asciiLower) then 1
  else if charListLt b.data a.data then -1
  else if charListLt a.data b.data then 1
  else 0

/-- The auto-mode escalation criteria exactly as claim C7 lists them:
some deterministic finding is not `low`, or the added-line set is
nonempty and is large (> 250) or contains a sensitive line. -/
def escalationCriteria (diffText : String) (det : List Finding) : Prop :=
  det.any (fun f => f.severity ≠ .low) = true ∨
  (parseAddedLines diffText ≠ [] ∧
    (250 < (parseAddedLines diffText).length ∨
     (parseAddedLines diffText).any lineIsSensitive = true))

/-- Test fixture: a total rule flagging added lines that mention
"password" (a stand-in well-behaved rule for the rule-isolation
claim). -/
def goodRule : Rule :=
  { id := "test-rule", title := "Test", severity := .high, description := "d"
    matchRule := fun l _ =>
      .ok (if containsSeq "password".data l.text.data then some l.text else none) }

/-- Test fixture: a rule whose `match` throws on every line. -/
def throwingRule : Rule :=
  { id := "throwing-rule", title := "Throws", severity := .high, description := "d"
    matchRule := fun _ _ => .error () }

/-- Test fixture: a two-added-line diff, one line mentioning
"password". -/
def c4Diff : String :=
  "--- a/x.ts\n+++ b/x.ts\n@@ -1 +1,2 @@\n+const password = 1;\n+ok"

/-- The value of `scanDiffE [goodRule] c4Diff`. -/
def c4ScanResult : ScanResult :=
  { findings := [{ ruleId := "test-rule", title := "Test", severity := .high,
                   description := "d", filePath := "x.ts", line := 1,
                   evidence := "const password = 1;" }]
    summary := { total := 1, high := 1, medium := 0, low := 0 } }

/-- Test fixture: a total rule flagging added lines that mention
"secret", for the sort-order claim. -/
def c8Rule : Rule :=
  { id := "secret-rule", title := "Secret", severity := .high, description := "d"
    matchRule := fun l _ =>
      .ok (if containsSeq "secret".data l.text.data then some l.text else none) }

/-- Test fixture: a diff adding one flagged line to `README.md` and one
to `app.ts` — equal-severity findings whose file paths are ordered
differently by locale collation and by code points. -/
def c8Diff : String :=
  "--- a/README.md\n+++ b/README.md\n@@ -1 +1 @@\n+secret one\n--- a/app.ts\n+++ b/app.ts\n@@ -1 +1 @@\n+secret two"

/-- The `README.md` finding of `c8Diff` under `c8Rule`. -/
def c8ReadmeFinding : Finding :=
  { ruleId := "secret-rule", title := "Secret", severity := .high,
    description := "d", filePath := "README.md", line := 1,
    evidence := "secret one" }

/-- The `app.ts` finding of `c8Diff` under `c8Rule`. -/
def c8AppFinding : Finding :=
  { ruleId := "secret-rule", title := "Secret", severity := .high,
    description := "d", filePath := "app.ts", line := 1,
    evidence := "secret two" }

/-- The value of `scanDiffEWith codePointCmp [c8Rule] c8Diff`
(code-point order puts `README.md` first). -/
def c8CodePointResult : ScanResult :=
  { findings := [c8ReadmeFinding, c8AppFinding]
    summary := { total := 2, high := 2, medium := 0, low := 0 } }

/-- Test fixture: a high-severity advisory finding (as produced by the
advisory channel). -/
def advisoryHighFinding : Finding :=
  { ruleId := "llm-auth", title := "Possible auth issue", severity := .high,
    description := "r (LLM advisory)", filePath := "api/auth.ts", line := 3,
    evidence := "ev", source := some .llm, confidence := some 1 }

/-- Test fixture: a validated request whose diff produces no findings. -/
def c1Payload : ScanPayload := { diff := "hello" }

/-- Test fixture: a deterministic finding for the policy-engine
claims. -/
def c3Finding : Finding :=
  { ruleId := "hardcoded-secret", title := "t", severity := .high,
    description := "d", filePath := "src/app.ts", line := 1, evidence := "e" }

/-- Test fixture: overrides whose `ignorePathsContaining` holds the
empty string. -/
def c3Overrides : PolicyOverrides :=
  { ignorePathsContaining := some [""] }

/-- Test fixture: a normalized advisory candidate with category
`"Auth Bypass"`. -/
def llmEntryFixture : LLMFinding :=
  { title := "T", severity := .high, filePath := "a.ts", line := 3,
    evidence := "e", rationale := "r", confidence := 1, category := "Auth Bypass" }

/-- Builds a fully valid advisory candidate object. -/
def candidateJson (line conf : ℚ) (category : String) : JsonValue :=
  .obj [("title", .str "t"), ("severity", .str "high"),
        ("filePath", .str "a.ts"), ("line", .num line),
        ("evidence", .str "e"), ("rationale", .str "r"),
        ("confidence", .num conf), ("category", .str category)]

/-- Test fixture: an advisory payload with five valid candidates (one
more than the default cap of 4). -/
def fiveFindingsPayload : JsonValue :=
  .obj [("summary", .str "s"),
        ("findings", .arr [candidateJson 1 1 "a", candidateJson 2 1 "b",
                           candidateJson 3 1 "c", candidateJson 4 1 "d",
                           candidateJson 5 1 "e"])]

/-- The normalized form of `candidateJson (-5) 2 "x"`. -/
def c6NormedEntry : LLMFinding :=
  { title := "t", severity := .high, filePath := "a.ts",
    line := max 1 ⌊(-5 : ℚ)⌋, evidence := "e", rationale := "r",
    confidence := roundTo2 (max 0 (min 1 2)), category := "x" }

/-- Test fixture: a diff whose single added line is in a
sensitive-named file (`auth.ts`). -/
def sensitiveDiff : String :=
  "--- a/x.ts\n+++ b/auth.ts\n@@ -1 +1 @@\n+x"

/-- Test fixture: a validated request that supplies overrides. -/
def c10Payload : ScanPayload :=
  { diff := "+x", overrides := some { disableRules := some ["hardcoded-secret"] } }

/-- Characterization of the strict lexicographic comparison on a cons. -/
theorem charListLt_cons_iff (c d : Char) (cs ds : List Char) :
    charListLt (c :: cs) (d :: ds) = true ↔
      c.toNat < d.toNat ∨ (c.toNat = d.toNat ∧ charListLt cs ds = true) := by
  simp only [charListLt]
  split_ifs with h1 h2
  · simp [h1]
  · simp
    omega
  · have he : c.toNat = d.toNat := by omega
    simp [he, h1]

theorem charListLt_trans : ∀ (x y z : List Char),
    charListLt x y = true → charListLt y z = true → charListLt x z = true
  | [], [], _, hxy, _ => by simp [charListLt] at hxy
  | [], _ :: _, [], _, hyz => by simp [charListLt] at hyz
  | [], _ :: _, _ :: _, _, _ => by simp [charListLt]
  | _ :: _, [], _, hxy, _ => by simp [charListLt] at hxy
  | _ :: _, _ :: _, [], _, hyz => by simp [charListLt] at hyz
  | c :: cs, d :: ds, e :: es, hxy, hyz => by
    rw [charListLt_cons_iff] at hxy hyz ⊢
    rcases hxy with h | ⟨he, hr⟩
    · rcases hyz with h2 | ⟨he2, _⟩
      · exact Or.inl (by omega)
      · exact Or.inl (by omega)
    · rcases hyz with h2 | ⟨he2, hr2⟩
      · exact Or.inl (by omega)
      · exact Or.inr ⟨by omega, charListLt_trans cs ds es hr hr2⟩

theorem charListLt_eq_of_not : ∀ (x y : List Char),
    charListLt x y = false → charListLt y x = false → x = y
  | [], [], _, _ => rfl
  | [], _ :: _, hxy, _ => by simp [charListLt] at hxy
  | _ :: _, [], _, hyx => by simp [charListLt] at hyx
  | c :: cs, d :: ds, hxy, hyx => by
    rw [Bool.eq_false_iff, Ne, charListLt_cons_iff] at hxy hyx
    push_neg at hxy hyx
    have he : c.toNat = d.toNat := by omega
    have hc : c = d := Char.ext (UInt32.ext he)
    have hcs : cs = ds :=
      charListLt_eq_of_not cs ds
        (Bool.eq_false_iff.mpr (hxy.2 he)) (Bool.eq_false_iff.mpr (hyx.2 he.symm))
    rw [hc, hcs]

theorem charListLt_irrefl : ∀ (x : List Char), charListLt x x = false
  | [] => rfl
  | c :: cs => by
    simp only [charListLt, lt_irrefl, if_false]
    exact charListLt_irrefl cs

/-- `severityRank` is injective. -/
theorem severityRank_inj : ∀ s t : Severity, severityRank s = severityRank t → s = t := by
  intro s t h
  cases s <;> cases t <;> first | rfl | simp [severityRank] at h

/-- Strict code-point order is asymmetric. -/
theorem charListLt_asymm {x y : List Char} (h : charListLt x y = true) :
    charListLt y x = false := by
  by_contra hc
  rw [Bool.not_eq_false] at hc
  have hx := charListLt_trans x y x h hc
  rw [charListLt_irrefl] at hx
  cases hx

/-- The placeholder comparator's ≤-0 relation is failure of the
reversed strict comparison. -/
theorem codePointCmp_le_iff (a b : String) :
    codePointCmp a b ≤ 0 ↔ charListLt b.data a.data = false := by
  unfold codePointCmp
  by_cases h1 : charListLt a.data b.data = true
  · simp [h1, charListLt_asymm h1]
  · rw [Bool.not_eq_true] at h1
    by_cases h2 : charListLt b.data a.data = true
    · simp [h1, h2]
    · rw [Bool.not_eq_true] at h2
      simp [h1, h2]

/-- The placeholder comparator is sign-antisymmetric. -/
theorem codePointCmp_sign (a b : String) :
    codePointCmp a b < 0 ↔ 0 < codePointCmp b a := by
  unfold codePointCmp
  by_cases h1 : charListLt a.data b.data = true
  · simp [h1, charListLt_asymm h1]
  · rw [Bool.not_eq_true] at h1
    by_cases h2 : charListLt b.data a.data = true
    · simp [h1, h2]
    · rw [Bool.not_eq_true] at h2
      simp [h1, h2]

/-- The placeholder comparator's ≤-0 relation is transitive. -/
theorem codePointCmp_trans (a b c : String) (hab : codePointCmp a b ≤ 0)
    (hbc : codePointCmp b c ≤ 0) : codePointCmp a c ≤ 0 := by
  rw [codePointCmp_le_iff] at hab hbc ⊢
  by_cases h1 : charListLt a.data b.data = true
  · by_cases h2 : charListLt b.data c.data = true
    · exact charListLt_asymm (charListLt_trans _ _ _ h1 h2)
    · have hbc2 : b.data = c.data :=
        charListLt_eq_of_not _ _ (by simpa using h2) hbc
      rw [hbc2] at hab
      exact hab
  · have hab2 : a.data = b.data :=
      charListLt_eq_of_not _ _ (by simpa using h1) hab
    rw [← hab2] at hbc
    exact hbc

/-- Characterization of the comparator's ≤-0 relation for an abstract
path comparator. -/
theorem findingLEWith_iff (pathCmp : String → String → Int) (a b : Finding) :
    findingLEWith pathCmp a b = true ↔
      severityRank b.severity < severityRank a.severity ∨
      (severityRank a.severity = severityRank b.severity ∧
        (pathCmp a.filePath b.filePath < 0 ∨
         (pathCmp a.filePath b.filePath = 0 ∧ a.line ≤ b.line))) := by
  unfold findingLEWith
  split_ifs with h1 h2 h3 h4
  · simp [h1]
  · simp only [Bool.false_eq_true, false_iff]
    push_neg
    exact ⟨by omega, fun he => absurd he (by omega)⟩
  · have he : severityRank a.severity = severityRank b.severity := by omega
    simp [he, h3]
  · have he : severityRank a.severity = severityRank b.severity := by omega
    simp only [Bool.false_eq_true, false_iff]
    push_neg
    exact ⟨by omega, fun _ => ⟨by omega, fun hz => absurd hz (by omega)⟩⟩
  · have he : severityRank a.severity = severityRank b.severity := by omega
    have hz : pathCmp a.filePath b.filePath = 0 := by omega
    simp [he, hz]

/-- A sign-antisymmetric comparator ties symmetrically. -/
theorem cmpZeroSymm (pathCmp : String → String → Int)
    (hsign : forall a b, pathCmp a b < 0 ↔ 0 < pathCmp b a)
    {a b : String} (h : pathCmp a b = 0) : pathCmp b a = 0 := by
  rcases Int.lt_trichotomy (pathCmp b a) 0 with hx | hx | hx
  · have := (hsign b a).mp hx
    omega
  · exact hx
  · have := (hsign a b).mpr hx
    omega

/-- Strict-then-weak composition of a consistent comparator. -/
theorem cmpLtOfLtLe (pathCmp : String → String → Int)
    (htrans : forall a b c, pathCmp a b ≤ 0 → pathCmp b c ≤ 0 → pathCmp a c ≤ 0)
    (hsign : forall a b, pathCmp a b < 0 ↔ 0 < pathCmp b a)
    {a b c : String} (h1 : pathCmp a b < 0) (h2 : pathCmp b c ≤ 0) :
    pathCmp a c < 0 := by
  by_contra hge
  push_neg at hge
  have hac : pathCmp a c = 0 :=
    le_antisymm (htrans a b c (le_of_lt h1) h2) hge
  have hca : pathCmp c a = 0 := cmpZeroSymm pathCmp hsign hac
  have hba : pathCmp b a ≤ 0 := htrans b c a h2 (le_of_eq hca)
  have := (hsign a b).mp h1
  omega

/-- Weak-then-strict composition of a consistent comparator. -/
theorem cmpLtOfLeLt (pathCmp : String → String → Int)
    (htrans : forall a b c, pathCmp a b ≤ 0 → pathCmp b c ≤ 0 → pathCmp a c ≤ 0)
    (hsign : forall a b, pathCmp a b < 0 ↔ 0 < pathCmp b a)
    {a b c : String} (h1 : pathCmp a b ≤ 0) (h2 : pathCmp b c < 0) :
    pathCmp a c < 0 := by
  by_contra hge
  push_neg at hge
  have hac : pathCmp a c = 0 :=
    le_antisymm (htrans a b c h1 (le_of_lt h2)) hge
  have hca : pathCmp c a = 0 := cmpZeroSymm pathCmp hsign hac
  have hcb : pathCmp c b ≤ 0 := htrans c a b (le_of_eq hca) h1
  have := (hsign b c).mp h2
  omega

/-- Ties of a consistent comparator compose. -/
theorem cmpZeroTrans (pathCmp : String → String → Int)
    (htrans : forall a b c, pathCmp a b ≤ 0 → pathCmp b c ≤ 0 → pathCmp a c ≤ 0)
    (hsign : forall a b, pathCmp a b < 0 ↔ 0 < pathCmp b a)
    {a b c : String} (h1 : pathCmp a b = 0) (h2 : pathCmp b c = 0) :
    pathCmp a c = 0 := by
  have hac : pathCmp a c ≤ 0 := htrans a b c (le_of_eq h1) (le_of_eq h2)
  have hca : pathCmp c a ≤ 0 :=
    htrans c b a (le_of_eq (cmpZeroSymm pathCmp hsign h2))
      (le_of_eq (cmpZeroSymm pathCmp hsign h1))
  rcases lt_or_eq_of_le hac with hx | hx
  · have := (hsign a c).mp hx
    omega
  · exact hx

/-- The sort relation of a sign-antisymmetric comparator is total. -/
theorem findingLEPWith_isTotal (pathCmp : String → String → Int)
    (hsign : forall a b, pathCmp a b < 0 ↔ 0 < pathCmp b a) :
    IsTotal Finding (findingLEPWith pathCmp) := by
  constructor
  intro a b
  unfold findingLEPWith
  rw [findingLEWith_iff, findingLEWith_iff]
  rcases Nat.lt_trichotomy (severityRank a.severity) (severityRank b.severity) with h | h | h
  · exact Or.inr (Or.inl h)
  · rcases Int.lt_trichotomy (pathCmp a.filePath b.filePath) 0 with hc | hc | hc
    · exact Or.inl (Or.inr ⟨h, Or.inl hc⟩)
    · have hba : pathCmp b.filePath a.filePath = 0 := cmpZeroSymm pathCmp hsign hc
      rcases Int.le_total a.line b.line with hl | hl
      · exact Or.inl (Or.inr ⟨h, Or.inr ⟨hc, hl⟩⟩)
      · exact Or.inr (Or.inr ⟨h.symm, Or.inr ⟨hba, hl⟩⟩)
    · exact Or.inr (Or.inr ⟨h.symm, Or.inl ((hsign b.filePath a.filePath).mpr hc)⟩)
  · exact Or.inl (Or.inl h)

/-- The sort relation of a consistent comparator is transitive. -/
theorem findingLEPWith_isTrans (pathCmp : String → String → Int)
    (htrans : forall a b c, pathCmp a b ≤ 0 → pathCmp b c ≤ 0 → pathCmp a c ≤ 0)
    (hsign : forall a b, pathCmp a b < 0 ↔ 0 < pathCmp b a) :
    IsTrans Finding (findingLEPWith pathCmp) := by
  constructor
  intro a b c hab hbc
  unfold findingLEPWith at hab hbc ⊢
  rw [findingLEWith_iff] at hab hbc ⊢
  rcases hab with h | ⟨e1, p1⟩ <;> rcases hbc with h2 | ⟨e2, p2⟩
  · exact Or.inl (by omega)
  · exact Or.inl (by omega)
  · exact Or.inl (by omega)
  · right
    refine ⟨by omega, ?_⟩
    rcases p1 with hl1 | ⟨hz1, ln1⟩ <;> rcases p2 with hl2 | ⟨hz2, ln2⟩
    · exact Or.inl (cmpLtOfLtLe pathCmp htrans hsign hl1 (le_of_lt hl2))
    · exact Or.inl (cmpLtOfLtLe pathCmp htrans hsign hl1 (le_of_eq hz2))
    · exact Or.inl (cmpLtOfLeLt pathCmp htrans hsign (le_of_eq hz1) hl2)
    · exact Or.inr ⟨cmpZeroTrans pathCmp htrans hsign hz1 hz2, le_trans ln1 ln2⟩

/-- The sorted-by relation implies the amended C8 ordering. -/
theorem findingLEWith_imp_orderedWith (pathCmp : String → String → Int)
    {a b : Finding} (h : findingLEPWith pathCmp a b) :
    findingOrderedWith pathCmp a b := by
  unfold findingLEPWith at h
  rw [findingLEWith_iff] at h
  rcases h with h | ⟨he, hp⟩
  · exact Or.inl h
  · have hs : a.severity = b.severity := severityRank_inj _ _ he
    rcases hp with hl | ⟨hz, hline⟩
    · exact Or.inr (Or.inl ⟨hs, le_of_lt hl⟩)
    · exact Or.inr (Or.inr ⟨hs, hz, hline⟩)

/-- A bind of `Except` values is `ok` when both stages are. -/
theorem except_bind_isOk {ε α β : Type} (x : Except ε α) (f : α → Except ε β)
    (hx : x.isOk = true) (hf : ∀ a, x = .ok a → (f a).isOk = true) :
    (x >>= f).isOk = true := by
  cases x with
  | error e => simp [Except.isOk, Except.toBool] at hx
  | ok a => exact hf a rfl

/-- With only total rules, the per-line rule loop returns normally. -/
theorem runRules_isOk (rules : List Rule) (fp : String) (l : AddedLine) (ctx : RuleContext)
    (h : ∀ r ∈ rules, ∀ l' ctx', (r.matchRule l' ctx').isOk = true) :
    (runRules rules fp l ctx).isOk = true := by
  induction rules with
  | nil => rfl
  | cons r rs ih =>
    unfold runRules
    refine except_bind_isOk _ _ (h r (List.mem_cons_self r rs) l ctx) ?_
    intro ev _
    refine except_bind_isOk _ _ (ih (fun r' hr' => h r' (List.mem_cons_of_mem _ hr'))) ?_
    intro rest _
    cases ev <;> rfl

/-- With only total rules, the per-file line loop returns normally. -/
theorem scanLines_isOk (rules : List Rule) (fp : String) (allLines : List AddedLine)
    (h : ∀ r ∈ rules, ∀ l' ctx', (r.matchRule l' ctx').isOk = true) :
    ∀ (idx : Nat) (ls : List AddedLine), (scanLines rules fp allLines idx ls).isOk = true := by
  intro idx ls
  induction ls generalizing idx with
  | nil => rfl
  | cons l ls ih =>
    unfold scanLines
    refine except_bind_isOk _ _ (runRules_isOk rules fp l _ h) ?_
    intro here _
    exact except_bind_isOk _ _ (ih (idx + 1)) (fun rest _ => rfl)

/-- With only total rules, the file-group loop returns normally. -/
theorem scanFiles_isOk (rules : List Rule)
    (h : ∀ r ∈ rules, ∀ l' ctx', (r.matchRule l' ctx').isOk = true) :
    ∀ groups : List (String × List AddedLine), (scanFiles rules groups).isOk = true := by
  intro groups
  induction groups with
  | nil => rfl
  | cons g rest ih =>
    unfold scanFiles
    refine except_bind_isOk _ _ (scanLines_isOk rules g.1 g.2 h 0 g.2) ?_
    intro here _
    exact except_bind_isOk _ _ ih (fun more _ => rfl)

/-- Definitional unfolding of the parser loop on a cons cell. -/
theorem parseLinesGo_cons (cf : Option (List Char)) (n : Nat) (inHunk : Bool)
    (l : List Char) (ls : List (List Char)) :
    parseLinesGo cf n inHunk (l :: ls) =
      if "+++ ".data.isPrefixOf l then
        parseLinesGo (parseNewFilePath l) n false ls
      else
        match hunkCapture l with
        | some m => parseLinesGo cf m true ls
        | none =>
          match inHunk with
          | false => parseLinesGo cf n false ls
          | true =>
            match cf with
            | none => parseLinesGo none n true ls
            | some fp =>
              if "+".data.isPrefixOf l ∧ ¬ "+++".data.isPrefixOf l then
                { filePath := String.mk fp, line := n, text := String.mk (l.drop 1) }
                  :: parseLinesGo (some fp) (n + 1) true ls
              else if " ".data.isPrefixOf l then
                parseLinesGo (some fp) (n + 1) true ls
              else
                parseLinesGo (some fp) n true ls := rfl

/-- Lines that are neither file headers nor hunk headers produce no
added lines while the parser is outside any hunk. -/
theorem parseLinesGo_nil : ∀ (lines : List (List Char)) (cf : Option (List Char)) (n : Nat),
    (∀ l ∈ lines, "+++ ".data.isPrefixOf l = false ∧ hunkCapture l = none) →
    parseLinesGo cf n false lines = []
  | [], _, _, _ => rfl
  | l :: ls, cf, n, h => by
    have hl := h l (List.mem_cons_self l ls)
    rw [parseLinesGo_cons]
    simp only [hl.1, hl.2, Bool.false_eq_true, if_false]
    exact parseLinesGo_nil ls cf n (fun l' hl' => h l' (List.mem_cons_of_mem _ hl'))

/-- Every character surviving the run-collapsing pass is alphanumeric
or the separator. -/
theorem mem_collapseRuns : ∀ (b : Bool) (l : List Char) (c : Char),
    c ∈ collapseRunsAux b l → isLowerAlnum c = true ∨ c = '-'
  | _, [], c, h => by simp [collapseRunsAux] at h
  | b, d :: rest, c, h => by
    unfold collapseRunsAux at h
    split_ifs at h with h1 h2
    · rcases List.mem_cons.mp h with rfl | h3
      · exact Or.inl h1
      · exact mem_collapseRuns false rest c h3
    · exact mem_collapseRuns true rest c h
    · rcases List.mem_cons.mp h with rfl | h3
      · exact Or.inr rfl
      · exact mem_collapseRuns true rest c h3

/-- The head surviving a `dropWhile` fails the dropped predicate. -/
theorem head?_dropWhile_not (p : Char → Bool) : ∀ (l : List Char) (c : Char),
    (l.dropWhile p).head? = some c → p c = false
  | [], c, h => by simp at h
  | d :: rest, c, h => by
    rw [List.dropWhile_cons] at h
    split_ifs at h with hd
    · exact head?_dropWhile_not p rest c h
    · simp only [List.head?_cons, Option.some.injEq] at h
      rw [← h]
      exact Bool.not_eq_true _ ▸ (by simpa using hd)

/-- A nonempty prefix determines the head of the longer list. -/
theorem head?_eq_of_front {l₁ l₂ : List Char} (h : l₁ <+: l₂) {c : Char}
    (hc : l₁.head? = some c) : l₂.head? = some c := by
  obtain ⟨t, rfl⟩ := h
  cases l₁ with
  | nil => simp at hc
  | cons x xs => simpa using hc

/-- `trimDashes l` is a prefix of `l` with its leading dashes removed. -/
theorem trimDashes_front (l : List Char) :
    trimDashes l <+: l.dropWhile (fun c => c = '-') := by
  unfold trimDashes
  obtain ⟨t, ht⟩ := List.dropWhile_suffix
    (l := (l.dropWhile (fun c => c = '-')).reverse) (fun c => c = '-')
  have hm : (t ++ (l.dropWhile (fun c => c = '-')).reverse.dropWhile (fun c => c = '-')).reverse
      = l.dropWhile (fun c => c = '-') := by
    rw [ht, List.reverse_reverse]
  rw [List.reverse_append] at hm
  exact ⟨t.reverse, hm⟩

/-- The head of a 48-character truncation is the head of the list. -/
theorem head?_take48 (l : List Char) : (l.take 48).head? = l.head? := by
  cases l with
  | nil => rfl
  | cons x xs => rfl

/-- C1: the block/pass decision is computed from deterministic findings
only: the route's `shouldBlock` does not depend on the advisory finding
list, and a scan with zero deterministic findings plus one
high-severity advisory finding yields `shouldBlock = false`. -/
theorem C1_block_decision_deterministic_only :
    (∀ (threatlensApiKey xApiKey xOpenrouterKey : Option String) (rules : List Rule)
        (payload : ScanPayload) (advisory1 advisory2 : List Finding),
      (postScan threatlensApiKey xApiKey xOpenrouterKey rules payload advisory1).map
          (fun r => r.shouldBlock) =
        (postScan threatlensApiKey xApiKey xOpenrouterKey rules payload advisory2).map
          (fun r => r.shouldBlock)) ∧
    (postScan none none none [] c1Payload [advisoryHighFinding]).map
        (fun r => r.shouldBlock) = .ok false := by
  constructor
  · intro tk xk xo rules payload a1 a2
    simp only [postScan]
    cases h1 : (payload.overrides.isSome && !(resolveAuthContext tk xk xo).hasValidApiKey) with
    | true => simp only [h1, if_true]
    | false =>
      simp only [h1, Bool.false_eq_true, if_false]
      cases h2 : (llmModeGate payload && keyTruthy tk &&
          !(resolveAuthContext tk xk xo).hasValidApiKey) with
      | true => simp only [h2, if_true]
      | false =>
        simp only [h2, Bool.false_eq_true, if_false]
        cases hp : resolvePolicyPack payload.packId with
        | error m => rfl
        | ok pack =>
          cases hs : scanDiffE rules payload.diff with
          | error e => rfl
          | ok base => rfl
  · rfl

/-- C2: `severityMeetsThreshold` is false at threshold `none` and
otherwise compares severity ranks under `low < medium < high`, and
`shouldBlock` holds iff some deterministic finding meets the effective
threshold. -/
theorem C2_threshold_semantics :
    (∀ s : Severity, severityMeetsThreshold s none = false) ∧
    (∀ s t : Severity,
      severityMeetsThreshold s (some t) = decide (severityRank t ≤ severityRank s)) ∧
    (severityRank .low < severityRank .medium ∧
      severityRank .medium < severityRank .high) ∧
    (∀ (det : List Finding) (failOn : Threshold),
      shouldBlockOf det failOn = true ↔
        ∃ f ∈ det, severityMeetsThreshold f.severity failOn = true) := by
  refine ⟨fun s => rfl, fun s t => rfl, by decide, ?_⟩
  intro det failOn
  simp [shouldBlockOf, List.any_eq_true]

/-- C9: an input with no recognizable file or hunk headers parses to no
added lines, scans to an empty, all-zero result under any rule set,
and can never block. -/
theorem C9_unrecognizable_diff_is_empty :
    ∀ d : String,
      (∀ l ∈ splitJsLines d, "+++ ".data.isPrefixOf l = false ∧ hunkCapture l = none) →
      parseAddedLines d = [] ∧
      (∀ rules : List Rule, scanDiffE rules d =
        .ok { findings := [], summary := { total := 0, high := 0, medium := 0, low := 0 } }) ∧
      (∀ (pack : PolicyPack) (overrides : Option PolicyOverrides)
          (respectOpt : Option Bool) (failOn : Threshold),
        shouldBlockOf (applyPolicy [] pack overrides respectOpt) failOn = false) := by
  intro d h
  have hp : parseAddedLines d = [] := parseLinesGo_nil (splitJsLines d) none 0 h
  refine ⟨hp, ?_, ?_⟩
  · intro rules
    unfold scanDiffE scanDiffEWith
    rw [hp]
    rfl
  · intro pack overrides respectOpt failOn
    rfl

set_option maxRecDepth 20000 in
/-- Witness for C9 at the header-free input `"not a diff\njust text"`. -/
theorem C9_witness :
    parseAddedLines "not a diff\njust text" = [] ∧
    scanDiffE [] "not a diff\njust text" =
      .ok { findings := [], summary := { total := 0, high := 0, medium := 0, low := 0 } } ∧
    shouldBlockOf (applyPolicy [] startupDefaultPack none none) (some .high) = false := by
  have h := C9_unrecognizable_diff_is_empty "not a diff\njust text" (by decide)
  exact ⟨h.1, h.2.1 [], h.2.2 startupDefaultPack none none (some .high)⟩

/-- C10: with no configured `THREATLENS_API_KEY`, `resolveAuthContext`
reports an invalid key for every request, so any validated request
that supplies overrides is rejected with the 403 error before any
scanning happens. -/
theorem C10_no_secret_rejects_overrides :
    ∀ xApiKey xOpenrouterKey : Option String,
      (resolveAuthContext none xApiKey xOpenrouterKey).hasValidApiKey = false ∧
      (∀ (rules : List Rule) (payload : ScanPayload) (advisory : List Finding),
        payload.overrides.isSome = true →
        postScan none xApiKey xOpenrouterKey rules payload advisory =
          .error { status := 403,
                   message := "overrides are only available for authenticated requests" }) := by
  intro xk xo
  refine ⟨rfl, ?_⟩
  intro rules payload advisory hov
  unfold postScan
  simp [resolveAuthContext, hov]

/-- Witness for C10: a concrete request with credentials attached and
overrides supplied is still rejected with 403. -/
theorem C10_witness :
    (resolveAuthContext none (some "key") (some "or")).hasValidApiKey = false ∧
    postScan none (some "key") (some "or") [] c10Payload [] =
      .error { status := 403,
               message := "overrides are only available for authenticated requests" } :=
  ⟨(C10_no_secret_rejects_overrides (some "key") (some "or")).1,
   (C10_no_secret_rejects_overrides (some "key") (some "or")).2 [] c10Payload [] rfl⟩

/-- Counterexample for C3: with `ignorePathsContaining = [""]` the
claim's step (3) drops every finding (the empty string is a substring
of every path), but `applyPolicy` keeps them all — the JavaScript
truthiness guard skips empty entries. -/
theorem C3_counterexample :
    applyPolicy [c3Finding] startupDefaultPack (some c3Overrides) none ≠
      applyPolicyClaimPipeline [c3Finding] startupDefaultPack (some c3Overrides) none := by
  decide

/-- C3 (amended): `applyPolicy` is exactly the claim's five steps in
the claim's order, with step (3) restricted to non-empty
`ignorePathsContaining` entries. -/
theorem C3_policy_filter_order_amended :
    ∀ (findings : List Finding) (pack : PolicyPack)
      (overrides : Option PolicyOverrides) (respectOpt : Option Bool),
      applyPolicy findings pack overrides respectOpt =
        applyPolicyAmendedPipeline findings pack overrides respectOpt := by
  intro findings pack overrides respectOpt
  have hallow :
      findings.filter (fun f =>
        if respectOpt.getD true then
          (pack.enabledRules.getD (findings.map (·.ruleId))).contains f.ruleId
        else true) =
      allowListStep (respectOpt.getD true) pack findings := by
    cases hr : respectOpt.getD true
    · simp [allowListStep]
    · cases he : pack.enabledRules with
      | none =>
        simp only [allowListStep, he, Option.getD_none, Option.getD_some, if_true]
        rw [List.filter_eq_self]
        intro f hf
        simpa using List.mem_map_of_mem (fun g => g.ruleId) hf
      | some allowed => simp [allowListStep, he]
  simp only [applyPolicy, applyPolicyAmendedPipeline, disableRulesStep,
    ignorePathsStepAmended, packSuppressionStep, severityRemapStep]
  rw [hallow]

set_option maxRecDepth 40000 in
/-- Counterexample for C4: with a throwing rule present, `scanDiff`
does not return normally — the whole scan is lost, including the
finding the well-behaved rule produces when it runs alone. -/
theorem C4_counterexample :
    scanDiffE [throwingRule, goodRule] c4Diff = .error () ∧
    (scanDiffE [goodRule] c4Diff).map (fun r => r.summary.total) = .ok 1 :=
  ⟨rfl, rfl⟩

/-- C4 (amended): `scanDiff` has no per-rule handler — a throwing rule
aborts the scan; only when every rule is total does `scanDiff` return
normally. -/
theorem C4_rule_isolation_amended :
    ∀ (rules : List Rule) (d : String),
      (∀ r ∈ rules, ∀ l ctx, (r.matchRule l ctx).isOk = true) →
      (scanDiffE rules d).isOk = true := by
  intro rules d h
  have htot := scanFiles_isOk rules h (groupByFile (parseAddedLines d))
  unfold scanDiffE scanDiffEWith
  cases hs : scanFiles rules (groupByFile (parseAddedLines d)) with
  | error e =>
    rw [hs] at htot
    exact absurd htot (by simp [Except.isOk, Except.toBool])
  | ok fs =>
    simp only [hs]
    rfl

/-- Witness for C4 (amended) at the total rule set `[goodRule]`. -/
theorem C4_witness : (scanDiffE [goodRule] c4Diff).isOk = true :=
  C4_rule_isolation_amended [goodRule] c4Diff (by
    intro r hr l ctx
    simp only [List.mem_singleton] at hr
    subst hr
    rfl)

/-- Unfolding of the slug's character list. -/
theorem sanitizeRuleId_data (s : String) :
    (sanitizeRuleId s).data =
      (trimDashes (collapseRunsAux false (s.data.map asciiLower))).take 48 := rfl

set_option maxRecDepth 20000 in
/-- Counterexample for C5: the advisory rule id of a surviving
candidate with category "Auth Bypass" is `llm-auth-bypass`, not
`advisory-auth-bypass`. -/
theorem C5_counterexample :
    (toAdvisoryFinding llmEntryFixture).ruleId ≠
      "advisory-" ++ sanitizeRuleId llmEntryFixture.category := by
  decide

/-- C5 (amended): every surviving advisory candidate gets rule id
`"llm-" ++ slug(category)` (not `"advisory-"`), where the slug is
lower-cased, has non-alphanumeric runs collapsed to single separators,
is trimmed of leading/trailing separators and truncated to 48
characters: it is at most 48 long, uses only `[a-z0-9-]`, and never
starts with a separator. -/
theorem C5_ruleId_slug_amended :
    (∀ entry : LLMFinding,
      (toAdvisoryFinding entry).ruleId = "llm-" ++ sanitizeRuleId entry.category) ∧
    (∀ s : String,
      (sanitizeRuleId s).data.length ≤ 48 ∧
      (∀ c ∈ (sanitizeRuleId s).data, isLowerAlnum c = true ∨ c = '-') ∧
      (∀ c, (sanitizeRuleId s).data.head? = some c → isLowerAlnum c = true)) := by
  refine ⟨fun entry => rfl, ?_⟩
  intro s
  refine ⟨?_, ?_, ?_⟩
  · rw [sanitizeRuleId_data, List.length_take]
    exact min_le_left _ _
  · intro c hc
    rw [sanitizeRuleId_data] at hc
    have h1 : c ∈ trimDashes (collapseRunsAux false (s.data.map asciiLower)) :=
      (List.take_sublist _ _).subset hc
    have h2 : c ∈ collapseRunsAux false (s.data.map asciiLower) := by
      unfold trimDashes at h1
      rw [List.mem_reverse] at h1
      have h1b := (List.dropWhile_sublist _).subset h1
      rw [List.mem_reverse] at h1b
      exact (List.dropWhile_sublist _).subset h1b
    exact mem_collapseRuns false _ c h2
  · intro c hc
    rw [sanitizeRuleId_data, head?_take48] at hc
    have h2 := head?_eq_of_front
      (trimDashes_front (collapseRunsAux false (s.data.map asciiLower))) hc
    have h3 := head?_dropWhile_not (fun x => x = '-') _ c h2
    have h4 : c ∈ collapseRunsAux false (s.data.map asciiLower) := by
      have hm : c ∈ (collapseRunsAux false (s.data.map asciiLower)).dropWhile
          (fun x => x = '-') := by
        cases hh : (collapseRunsAux false (s.data.map asciiLower)).dropWhile
            (fun x => x = '-') with
        | nil => rw [hh] at h2; simp at h2
        | cons y ys =>
          rw [hh] at h2
          simp only [List.head?_cons, Option.some.injEq] at h2
          rw [h2]
          exact List.mem_cons_self c ys
      exact (List.dropWhile_sublist _).subset hm
    rcases mem_collapseRuns false _ c h4 with ha | ha
    · exact ha
    · rw [ha] at h3
      simp at h3

set_option maxRecDepth 20000 in
/-- Witness for C5 (amended) at the concrete category "Auth Bypass". -/
theorem C5_witness :
    (toAdvisoryFinding llmEntryFixture).ruleId =
      "llm-" ++ sanitizeRuleId llmEntryFixture.category ∧
    isLowerAlnum 'a' = true :=
  ⟨C5_ruleId_slug_amended.1 llmEntryFixture,
   (C5_ruleId_slug_amended.2 "Auth Bypass").2.2 'a' (by decide)⟩

/-- Bounds of the two-decimal rounding on a clamped value. -/
theorem roundTo2_bounds {x : ℚ} (h0 : 0 ≤ x) (h1 : x ≤ 1) :
    0 ≤ roundTo2 x ∧ roundTo2 x ≤ 1 := by
  unfold roundTo2
  constructor
  · apply div_nonneg _ (by norm_num)
    have hz : (0 : ℤ) ≤ round (x * 100) := by
      rw [round_eq]
      apply Int.floor_nonneg.mpr
      nlinarith
    exact_mod_cast hz
  · rw [div_le_one (by norm_num)]
    have hz : round (x * 100) ≤ (100 : ℤ) := by
      rw [round_eq]
      apply Int.floor_le_iff.mpr
      push_cast
      nlinarith
    exact_mod_cast hz

/-- Counterexample for C6: the claim's cap fails — a payload with five
valid candidates normalizes to five findings even though the default
configured maximum is 4. -/
theorem C6_counterexample :
    ¬ (∀ (v : JsonValue) (r : LLMParsedPayload),
        parseLlmPayload v = .ok r → (r.findings.length : ℤ) ≤ llmMaxFindings none) := by
  intro h
  cases hp : parseLlmPayload fiveFindingsPayload with
  | error e =>
    have h5 : parseLlmPayload fiveFindingsPayload =
        .ok { summary := "s",
              findings := [candidateJson 1 1 "a", candidateJson 2 1 "b",
                candidateJson 3 1 "c", candidateJson 4 1 "d",
                candidateJson 5 1 "e"].filterMap normalizeFinding } := rfl
    rw [h5] at hp
    cases hp
  | ok r =>
    have hb := h fiveFindingsPayload r hp
    have h5 : (parseLlmPayload fiveFindingsPayload).map (fun p => p.findings.length) =
        .ok 5 := rfl
    rw [hp] at h5
    simp only [Except.map, Except.ok.injEq] at h5
    rw [h5] at hb
    have h4 : llmMaxFindings none = 4 := by
      norm_num [llmMaxFindings, jsClamp]
    rw [h4] at hb
    norm_num at hb

/-- C6 (amended): invalid candidates are dropped silently without
failing the batch; every surviving finding has `line ≥ 1` and
`confidence ∈ [0, 1]`; the configured maximum is 4 by default and
clamped into `[1, 10]` — but `parseLlmPayload` itself enforces no cap
on the number of findings it returns. -/
theorem C6_normalization_amended :
    (∀ (v : JsonValue) (f : LLMFinding), normalizeFinding v = some f →
      1 ≤ f.line ∧ 0 ≤ f.confidence ∧ f.confidence ≤ 1) ∧
    (∀ (v : JsonValue) (r : LLMParsedPayload), parseLlmPayload v = .ok r →
      ∀ f ∈ r.findings, ∃ c, normalizeFinding c = some f) ∧
    (∀ fields : List (String × JsonValue), (parseLlmPayload (.obj fields)).isOk = true) ∧
    (∀ (bad : JsonValue) (rest : List JsonValue), normalizeFinding bad = none →
      (bad :: rest).filterMap normalizeFinding = rest.filterMap normalizeFinding) ∧
    (llmMaxFindings none = 4 ∧
      ∀ q : ℚ, 1 ≤ llmMaxFindings (some q) ∧ llmMaxFindings (some q) ≤ 10) := by
  refine ⟨?_, ?_, ?_, ?_, ?_, ?_⟩
  · intro v f hf
    unfold normalizeFinding at hf
    split at hf
    · split at hf
      · injection hf with hf
        rw [← hf]
        refine ⟨le_max_left _ _, ?_⟩
        exact roundTo2_bounds (le_max_left _ _)
          (max_le (by norm_num) (min_le_left _ _))
      · cases hf
    · cases hf
  · intro v r hr f hf
    cases v with
    | obj fields =>
      simp only [parseLlmPayload, Except.ok.injEq] at hr
      subst hr
      simp only at hf
      cases hg : getField fields "findings" with
      | none => rw [hg] at hf; simp at hf
      | some gv =>
        rw [hg] at hf
        cases gv with
        | arr elems =>
          simp only at hf
          obtain ⟨c, -, hc⟩ := List.mem_filterMap.mp hf
          exact ⟨c, hc⟩
        | null => simp at hf
        | bool b => simp at hf
        | num q => simp at hf
        | str s => simp at hf
        | obj o => simp at hf
    | arr elems =>
      simp only [parseLlmPayload, Except.ok.injEq] at hr
      subst hr
      simp at hf
    | null => cases hr
    | bool b => cases hr
    | num q => cases hr
    | str s => cases hr
  · intro fields
    rfl
  · intro bad rest h
    simp [List.filterMap_cons, h]
  · norm_num [llmMaxFindings, jsClamp]
  · intro q
    unfold llmMaxFindings jsClamp
    constructor
    · exact le_min (by norm_num) (le_max_left _ _)
    · exact min_le_left _ _

/-- Witness for C6 (amended): the candidate with raw line −5 and raw
confidence 2 survives with clamped values. -/
theorem C6_witness :
    1 ≤ c6NormedEntry.line ∧
      0 ≤ c6NormedEntry.confidence ∧ c6NormedEntry.confidence ≤ 1 :=
  C6_normalization_amended.1 (candidateJson (-5) 2 "x") c6NormedEntry rfl

/-- Characterization of the auto-mode escalation decision. -/
theorem shouldEscalate_auto_iff (diffText : String) (det : List Finding) :
    shouldEscalate .auto diffText det = true ↔ escalationCriteria diffText det := by
  by_cases hany : det.any (fun f => f.severity ≠ .low) = true
  · simp [shouldEscalate, escalationCriteria, hany]
  · rw [Bool.not_eq_true] at hany
    by_cases hlen : (parseAddedLines diffText).length = 0
    · have hnil : parseAddedLines diffText = [] := List.length_eq_zero.mp hlen
      simp [shouldEscalate, escalationCriteria, hany, hnil]
    · have hne : parseAddedLines diffText ≠ [] :=
        fun hnil => hlen (by rw [hnil]; rfl)
      by_cases hbig : 250 < (parseAddedLines diffText).length
      · simp [shouldEscalate, escalationCriteria, hany, hlen, hbig, hne]
      · simp [shouldEscalate, escalationCriteria, hany, hlen, hbig, hne]

/-- Counterexample for C7: with no OpenRouter API key configured,
`runLlmAdvisoryScan` never reaches the external call even in mode
`always`, so the claim's "invokes iff" fails. -/
theorem C7_counterexample :
    ¬ (∀ (apiKey : Option String) (mode : LLMMode) (diffText : String)
          (det : List Finding),
        llmInvokes apiKey mode diffText det = true ↔
          (mode = LLMMode.always ∨
            (mode = LLMMode.auto ∧ escalationCriteria diffText det))) := by
  intro h
  have hfalse := (h none LLMMode.always "" []).mpr (Or.inl rfl)
  simp [llmInvokes, keyTruthy] at hfalse

/-- C7 (amended): when an OpenRouter API key is configured, the
advisory call is reached iff mode is `always`, or mode is `auto` and
the escalation criteria hold; mode `off` never invokes, and in auto
mode an empty added-line set with only-low findings does not
invoke. -/
theorem C7_escalation_amended :
    ∀ (apiKey : Option String) (mode : LLMMode) (diffText : String)
        (det : List Finding),
      keyTruthy apiKey = true →
      ((llmInvokes apiKey mode diffText det = true ↔
          (mode = LLMMode.always ∨
            (mode = LLMMode.auto ∧ escalationCriteria diffText det))) ∧
        (mode = LLMMode.off → llmInvokes apiKey mode diffText det = false) ∧
        (mode = LLMMode.auto → parseAddedLines diffText = [] →
          det.all (fun f => f.severity = .low) = true →
          llmInvokes apiKey mode diffText det = false)) := by
  intro k mode diff det hk
  cases mode with
  | off =>
    refine ⟨by simp [llmInvokes], fun _ => rfl, fun hcontra => absurd hcontra (by simp)⟩
  | always =>
    refine ⟨?_, fun hcontra => absurd hcontra (by simp),
      fun hcontra => absurd hcontra (by simp)⟩
    simp [llmInvokes, hk, shouldEscalate]
  | auto =>
    have hinv : llmInvokes k .auto diff det = shouldEscalate .auto diff det := by
      simp [llmInvokes, hk]
    refine ⟨?_, fun hcontra => absurd hcontra (by simp), ?_⟩
    · rw [hinv, shouldEscalate_auto_iff]
      simp
    · intro _ hnil hlow
      rw [hinv]
      rw [Bool.eq_false_iff, Ne, shouldEscalate_auto_iff]
      intro hc
      rcases hc with hany | ⟨hne, _⟩
      · rw [List.any_eq_true] at hany
        obtain ⟨f, hf, hsev⟩ := hany
        rw [List.all_eq_true] at hlow
        have := hlow f hf
        simp at hsev this
        exact hsev this
      · exact hne hnil

/-- Witness for C7 (amended): with a key configured, auto mode invokes
on a one-line diff touching `auth.ts`. -/
theorem C7_witness : llmInvokes (some "sk") .auto sensitiveDiff [] = true := by
  have h := (C7_escalation_amended (some "sk") .auto sensitiveDiff [] (by decide)).1
  exact h.mpr (Or.inr ⟨rfl, Or.inr ⟨by decide, Or.inr (by decide)⟩⟩)

set_option maxRecDepth 40000 in
/-- Counterexample for C8: under the host collation (modelled by
`icuAsciiCmp`, which orders `app.ts` before `README.md` at the
case-insensitive primary level), the scanner's output on `c8Diff` is
`[app.ts, README.md]` at equal severity — violating the claim's
code-point reading of "lexicographically", which puts `README.md`
(`'R' = U+0052`) before `app.ts` (`'a' = U+0061`). -/
theorem C8_counterexample :
    (scanDiffEWith icuAsciiCmp [c8Rule] c8Diff).map (fun r => r.findings) =
      .ok [c8AppFinding, c8ReadmeFinding] ∧
    ¬ findingOrdered c8AppFinding c8ReadmeFinding :=
  ⟨rfl, by decide⟩

/-- C8 (amended): relative to the comparator actually used — any
consistent path comparator (the sign of the host's `localeCompare`:
its ≤-0 relation transitive and its sign antisymmetric) — every
exposed finding list, the scanner output and the spec-modelled merged
output alike, is pairwise ordered by severity descending, then the
comparator's path order, then line ascending. -/
theorem C8_sort_order_amended :
    ∀ pathCmp : String → String → Int,
      (∀ a b c, pathCmp a b ≤ 0 → pathCmp b c ≤ 0 → pathCmp a c ≤ 0) →
      (∀ a b, pathCmp a b < 0 ↔ 0 < pathCmp b a) →
      (∀ l : List Finding,
        List.Pairwise (findingOrderedWith pathCmp) (sortFindingsWith pathCmp l)) ∧
      (∀ (rules : List Rule) (d : String) (r : ScanResult),
        scanDiffEWith pathCmp rules d = .ok r →
        List.Pairwise (findingOrderedWith pathCmp) r.findings) := by
  intro pathCmp htrans hsign
  have hsorted : ∀ l : List Finding,
      List.Pairwise (findingOrderedWith pathCmp) (sortFindingsWith pathCmp l) := by
    intro l
    haveI := findingLEPWith_isTotal pathCmp hsign
    haveI := findingLEPWith_isTrans pathCmp htrans hsign
    exact List.Pairwise.imp (fun h => findingLEWith_imp_orderedWith pathCmp h)
      (List.sorted_insertionSort (findingLEPWith pathCmp) l)
  refine ⟨hsorted, ?_⟩
  intro rules d r hr
  unfold scanDiffEWith at hr
  cases hs : scanFiles rules (groupByFile (parseAddedLines d)) with
  | error e =>
    rw [hs] at hr
    cases hr
  | ok fs =>
    rw [hs] at hr
    simp only [Except.ok.injEq] at hr
    rw [← hr]
    exact hsorted _

set_option maxRecDepth 40000 in
/-- Witness for C8 (amended) at the placeholder comparator, on a bare
two-finding list and on a concrete scan. -/
theorem C8_witness :
    List.Pairwise (findingOrderedWith codePointCmp)
        (sortFindingsWith codePointCmp [c8AppFinding, c8ReadmeFinding]) ∧
    List.Pairwise (findingOrderedWith codePointCmp) c8CodePointResult.findings :=
  ⟨(C8_sort_order_amended codePointCmp codePointCmp_trans codePointCmp_sign).1
      [c8AppFinding, c8ReadmeFinding],
   (C8_sort_order_amended codePointCmp codePointCmp_trans codePointCmp_sign).2
      [c8Rule] c8Diff c8CodePointResult rfl⟩
